import Mathlib

/-!
Verification of the ipmigo IPMI-over-LAN client core.

Shallow embedding of the Go sources (payload_ipmi.go, command_message.go,
payload_session.go, sdr.go, sel.go, time.go).  Bytes are modelled as `Nat`
values (wire bytes are below 256; arithmetic that wraps in Go carries an
explicit `% 256` / `% 2^32`).  Go functions returning `(T, error)` become
`Except IpmiErr T`; Go methods mutating a receiver return the new state
explicitly.  Cryptographic primitives from the Go standard library
(AES block cipher, HMAC-SHA1) are not part of this repository and are
abstracted as function parameters with the properties the library
guarantees (block-cipher inversion, fixed MAC output length).
-/

namespace Ipmigo

/-- Error outcomes of the Go code.  `message` stands for a `MessageError`
(the individual message strings are not inspected by any caller),
`command c` for a `CommandError` carrying completion code `c`,
`panicSliceBound` for a Go runtime panic on an out-of-range slice or
index (not an error value in Go), and `outOfFuel` marks exhausted
recursion fuel in loop models (never reached by the theorems below). -/
inductive IpmiErr where
  | message : IpmiErr
  | network : IpmiErr
  | command : Nat → IpmiErr
  | panicSliceBound : IpmiErr
  | outOfFuel : IpmiErr
deriving DecidableEq

/-- Completion code constants from src/time.go.  The Go `const` block starts
with two explicit specs (`CompletionOK`, `CompletionUnspecifiedError`), so at
`CompletionNodeBusy` the `iota` counter is already 2: `iota + 0xc0` yields
0xc2 there, and the whole block is shifted by two against IPMI Section 5.2.
In particular `CompletionReservationCancelled` is 0xc7 (the standard code is
0xc5) and `CompletionRequestDataFieldExceedEd` is 0xca. -/
def CompletionOK : Nat := 0x00

/-- src/time.go: eighth ConstSpec of the block, `iota = 7`, so 0xc7. -/
def CompletionReservationCancelled : Nat := 0xc7

/-- src/time.go: eleventh ConstSpec of the block, `iota = 10`, so 0xca. -/
def CompletionRequestDataFieldExceedEd : Nat := 0xca

/-- src/payload_ipmi.go `checksum`: a byte accumulator sums the buffer
modulo 256 and the result is the two's complement negation. -/
def checksum (buf : List Nat) : Nat :=
  (256 - buf.foldl (fun c x => (c + x) % 256) 0) % 256

/-- Little-endian 16-bit read at index `i` (Go binary.LittleEndian.Uint16). -/
def leUint16At (buf : List Nat) (i : Nat) : Nat :=
  buf.getD i 0 + 256 * buf.getD (i + 1) 0

/-- Little-endian 32-bit read at index `i` (Go binary.LittleEndian.Uint32). -/
def leUint32At (buf : List Nat) (i : Nat) : Nat :=
  buf.getD i 0 + 256 * buf.getD (i + 1) 0 + 65536 * buf.getD (i + 2) 0 +
    16777216 * buf.getD (i + 3) 0

/-- src/payload_ipmi.go `ipmiResponseMessage` (response data fields). -/
structure IpmiResponseMessage where
  rqAddr : Nat
  netFnRsLUN : Nat
  rsAddr : Nat
  rqSeq : Nat
  code : Nat
  completionCode : Nat
  data : List Nat
deriving DecidableEq

/-- src/payload_ipmi.go `ipmiResponseMessage.Unmarshal`: requires at least
8 bytes, verifies the header checksum over bytes 0-1 against byte 2 and the
body checksum over bytes 3..len-2 against the final byte, then extracts the
fields. -/
def ipmiResponseUnmarshal (buf : List Nat) : Except IpmiErr IpmiResponseMessage :=
  if buf.length < 8 then .error .message
  else if checksum (buf.take 2) ≠ buf.getD 2 0 then .error .message
  else if checksum ((buf.drop 3).dropLast) ≠ buf.getD (buf.length - 1) 0 then .error .message
  else .ok
    { rqAddr := buf.getD 0 0
      netFnRsLUN := buf.getD 1 0
      rsAddr := buf.getD 3 0
      rqSeq := buf.getD 4 0
      code := buf.getD 5 0
      completionCode := buf.getD 6 0
      data := (buf.drop 7).dropLast }

/-- src/command_message.go `sessionV2_0` state: session id, session sequence
number, command sequence number, integrity key K1 and cipher key K2, plus
whether the UDP socket is open (`s.conn != nil`). -/
structure SessionV2 where
  id : Nat
  sequence : Nat
  rqSeq : Nat
  k1 : Option (List Nat)
  k2 : Option (List Nat)
  conn : Bool
deriving DecidableEq

/-- src/command_message.go `sessionV2_0.ActiveSession`. -/
def SessionV2.ActiveSession (s : SessionV2) : Bool := s.id > 0

/-- math.MaxUint32. -/
def maxUint32 : Nat := 2 ^ 32 - 1

/-- src/command_message.go `sessionV2_0.NextSequence`: when the session is
active the sequence wraps from `math.MaxUint32` to 1, otherwise it is
incremented (a uint32 increment, hence the explicit modulus); when inactive
the stored sequence is returned unchanged.  Returns the value together with
the updated session. -/
def SessionV2.NextSequence (s : SessionV2) : Nat × SessionV2 :=
  if s.ActiveSession then
    if s.sequence = maxUint32 then (1, { s with sequence := 1 })
    else ((s.sequence + 1) % 2 ^ 32, { s with sequence := (s.sequence + 1) % 2 ^ 32 })
  else (s.sequence, s)

/-- src/command_message.go `sessionV2_0.Close`.  The network exchange
`s.Execute(newCloseSessionCommand(s.id))` is abstracted as an oracle `exec`
receiving the session id placed in the Close-Session command and the current
session; it returns the session as mutated by the exchange together with an
optional error.  `connCloseOk` abstracts the result of `s.conn.Close()`.
When the Close-Session exchange fails the Go code returns the error at once,
before the state-clearing assignments and before closing the socket. -/
def SessionV2.Close (s : SessionV2) (exec : Nat → SessionV2 → SessionV2 × Option IpmiErr)
    (connCloseOk : Bool) : SessionV2 × Option IpmiErr :=
  let step1 : SessionV2 × Option IpmiErr :=
    if s.ActiveSession then
      match exec s.id s with
      | (s', some e) => (s', some e)
      | (s', none) =>
        ({ s' with id := 0, sequence := 0, rqSeq := 0, k1 := none, k2 := none }, none)
    else (s, none)
  match step1 with
  | (s1, some e) => (s1, some e)
  | (s1, none) =>
    if s1.conn then
      if connCloseOk then ({ s1 with conn := false }, none)
      else (s1, some .network)
    else (s1, none)

/-- Zero-extension of a buffer to length `n` (Go
`buf = append(buf, make([]byte, n-l)...)` when `l < n`; unchanged when the
buffer is already long enough). -/
def zeroExtend (n : Nat) (buf : List Nat) : List Nat :=
  buf ++ List.replicate (n - buf.length) 0

/-- src/command_message.go `sessionHeaderV2_0` fields. -/
structure SessionHeaderV2 where
  authType : Nat
  payloadType : Nat
  id : Nat
  sequence : Nat
  payloadLength : Nat
deriving DecidableEq

/-- src/command_message.go `sessionHeaderV2_0.Unmarshal`: rejects buffers
shorter than the 12-byte header with a `MessageError`. -/
def sessionHeaderV2Unmarshal (buf : List Nat) :
    Except IpmiErr (SessionHeaderV2 × List Nat) :=
  if buf.length < 12 then .error .message
  else .ok
    ({ authType := buf.getD 0 0
       payloadType := buf.getD 1 0
       id := leUint32At buf 2
       sequence := leUint32At buf 6
       payloadLength := leUint16At buf 10 }, buf.drop 12)

/-- src/payload_session.go `openSessionResponse` fields (the cipher suite is
inlined as its three algorithm bytes). -/
structure OpenSessionResponse where
  messageTag : Nat
  statusCode : Nat
  privilegeLevel : Nat
  consoleID : Nat
  managedID : Nat
  cipherAuth : Nat
  cipherIntegrity : Nat
  cipherCrypt : Nat
deriving DecidableEq

/-- src/payload_session.go `openSessionResponse.Unmarshal`: a buffer shorter
than the 36-byte layout is zero-extended and then parsed; no error is ever
returned. -/
def openSessionResponseUnmarshal (buf : List Nat) :
    Except IpmiErr (OpenSessionResponse × List Nat) :=
  let buf := zeroExtend 36 buf
  .ok
    ({ messageTag := buf.getD 0 0
       statusCode := buf.getD 1 0
       privilegeLevel := buf.getD 2 0
       consoleID := leUint32At buf 4
       managedID := leUint32At buf 8
       cipherAuth := buf.getD 16 0
       cipherIntegrity := buf.getD 24 0
       cipherCrypt := buf.getD 32 0 }, buf.drop 36)

/-- src/payload_session.go `rakpMessage2` fields. -/
structure RakpMessage2 where
  messageTag : Nat
  statusCode : Nat
  consoleID : Nat
  managedRand : List Nat
  managedGUID : List Nat
  keyExchangeAuthCode : List Nat
deriving DecidableEq

/-- src/payload_session.go `rakpMessage2.Unmarshal`: a buffer shorter than
40 bytes is zero-extended and parsed; the 20-byte auth-code array receives
whatever bytes follow offset 40 (zero-filled when fewer than 20 remain);
no error is ever returned. -/
def rakpMessage2Unmarshal (buf : List Nat) :
    Except IpmiErr (RakpMessage2 × List Nat) :=
  let buf := zeroExtend 40 buf
  .ok
    ({ messageTag := buf.getD 0 0
       statusCode := buf.getD 1 0
       consoleID := leUint32At buf 4
       managedRand := (buf.drop 8).take 16
       managedGUID := (buf.drop 24).take 16
       keyExchangeAuthCode := zeroExtend 20 ((buf.drop 40).take 20) }, buf.drop 40)

/-- src/payload_session.go `rakpMessage4` fields. -/
structure RakpMessage4 where
  messageTag : Nat
  statusCode : Nat
  consoleID : Nat
  integrityCheckValue : List Nat
deriving DecidableEq

/-- src/payload_session.go `rakpMessage4.Unmarshal`: size is 8 + 12 = 20; a
shorter buffer is zero-extended and parsed; no error is ever returned. -/
def rakpMessage4Unmarshal (buf : List Nat) :
    Except IpmiErr (RakpMessage4 × List Nat) :=
  let buf := zeroExtend 20 buf
  .ok
    ({ messageTag := buf.getD 0 0
       statusCode := buf.getD 1 0
       consoleID := leUint32At buf 4
       integrityCheckValue := zeroExtend 12 ((buf.drop 8).take 12) }, buf.drop 20)

/-- Byte-wise exclusive or of two equal-length buffers. -/
def xorBytes (a b : List Nat) : List Nat :=
  List.zipWith (fun x y => x ^^^ y) a b

/-- Split a buffer into 16-byte blocks (the final block is shorter when the
length is not a multiple of 16; the payload code only ever splits buffers
whose length is a multiple of 16). -/
def toBlocks (l : List Nat) : List (List Nat) :=
  if h : l = [] then []
  else l.take 16 :: toBlocks (l.drop 16)
termination_by l.length
decreasing_by
  simp only [List.length_drop]
  have : l.length ≠ 0 := fun hl => h (List.length_eq_zero.mp hl)
  omega

/-- CBC encryption over a list of 16-byte blocks (Go
cipher.NewCBCEncrypter: each plaintext block is xor-ed with the previous
ciphertext block, the IV first, then passed through the block cipher `E`). -/
def cbcEncBlocks (E : List Nat → List Nat) : List Nat → List (List Nat) → List (List Nat)
  | _, [] => []
  | prev, b :: bs =>
    let c := E (xorBytes prev b)
    c :: cbcEncBlocks E c bs

/-- CBC decryption over a list of 16-byte blocks (Go
cipher.NewCBCDecrypter: each ciphertext block is deciphered with `D` and
xor-ed with the previous ciphertext block, the IV first). -/
def cbcDecBlocks (D : List Nat → List Nat) : List Nat → List (List Nat) → List (List Nat)
  | _, [] => []
  | prev, c :: cs => xorBytes prev (D c) :: cbcDecBlocks D c cs

/-- Pad length chosen by src/command_message.go `encryptPayload`: the
smallest count making `(srcLen + padLen + 1)` a multiple of the AES block
size 16. -/
def aesPadLen (srcLen : Nat) : Nat :=
  if (srcLen + 1) % 16 = 0 then 0 else 16 - (srcLen + 1) % 16

/-- The `input` buffer built by src/command_message.go `encryptPayload`:
the plaintext, then pad bytes 1, 2, ..., padLen, then the pad length
itself as the final byte. -/
def aesPadInput (src : List Nat) : List Nat :=
  src ++ (List.range (aesPadLen src.length)).map (fun i => i + 1) ++ [aesPadLen src.length]

/-- src/command_message.go `encryptPayload`: pads the plaintext, prepends a
16-byte initialization vector (random in Go, a parameter here) and
CBC-encrypts with the AES-128 block encryption `E` (Go crypto/aes,
abstracted). -/
def encryptPayload (E : List Nat → List Nat) (iv src : List Nat) : List Nat :=
  iv ++ (cbcEncBlocks E iv (toBlocks (aesPadInput src))).flatten

/-- src/command_message.go `decryptPayload` with the AES-128 block
decryption `D` abstracted.  Rejects a source shorter than 16 bytes or of
length not a multiple of 16 with a `MessageError`.  The Go code then reads
the pad length from `dst[len(dst)-1]` — a runtime panic when `dst` is empty
(a 16-byte source, the IV alone) — and slices `dst[:len(dst)-padLen-1]` — a
runtime panic when the unvalidated pad length reaches `len(dst)-1`.  Both
panics are modelled as `panicSliceBound`. -/
def decryptPayload (D : List Nat → List Nat) (src : List Nat) : Except IpmiErr (List Nat) :=
  if src.length < 16 ∨ src.length % 16 ≠ 0 then .error .message
  else
    let dst := (cbcDecBlocks D (src.take 16) (toBlocks (src.drop 16))).flatten
    if dst.length = 0 then .error .panicSliceBound
    else
      let padLen := dst.getD (dst.length - 1) 0
      if dst.length < padLen + 1 then .error .panicSliceBound
      else .ok (dst.take (dst.length - padLen - 1))

/-- Pad length chosen by src/command_message.go `makeTrailer`: the integrity
pad makes the source plus pad plus pad-length byte plus next-header byte
plus 12 auth-code bytes a multiple of 4. -/
def trailerPadLen (srcLen : Nat) : Nat :=
  if (srcLen + 1 + 1 + 12) % 4 = 0 then 0 else 4 - (srcLen + 1 + 1 + 12) % 4

/-- src/command_message.go `makeTrailer` with HMAC-SHA1 (Go crypto/hmac and
crypto/sha1, outside this repository) abstracted as `mac key data`, a
20-byte digest.  Builds `pad (0xff repeated) ++ [padLen, 0x07]`, MACs the
source followed by that prefix, and appends the first 12 digest bytes. -/
def makeTrailer (mac : List Nat → List Nat → List Nat) (src key : List Nat) : List Nat :=
  let padLen := trailerPadLen src.length
  List.replicate padLen 0xff ++ [padLen, 0x07] ++
    (mac key (src ++ List.replicate padLen 0xff ++ [padLen, 0x07])).take 12

/-- src/command_message.go `validateTrailer`: requires at least 12 bytes,
recomputes the MAC over everything except the final 12 bytes and compares
its first 12 bytes with them. -/
def validateTrailer (mac : List Nat → List Nat → List Nat) (src key : List Nat) :
    Except IpmiErr Unit :=
  if src.length < 12 then .error .message
  else if src.drop (src.length - 12) = (mac key (src.take (src.length - 12))).take 12 then
    .ok ()
  else .error .message

/-- Flip bit `b` of the byte at index `i` (out-of-range indices leave the
buffer unchanged). -/
def flipBit (l : List Nat) (i b : Nat) : List Nat :=
  l.set i (l.getD i 0 ^^^ 2 ^ b)

/-- src/sdr.go constants. -/
def sdrFirstID : Nat := 0x0000

/-- src/sdr.go: the record id that terminates a repository walk. -/
def sdrLastID : Nat := 0xffff

/-- src/sdr.go: size of the common SDR header. -/
def sdrHeaderSize : Nat := 5

/-- src/sdr.go: initial Get-SDR chunk size.  Modelled from the spec: the
`Client` struct fields (`sdrReadingBytes`, `args`) are missing from the
src/client.go snapshot; the spec states the chunk size starts at 32 and the
constant `sdrDefaultReadBytes = 32` in src/sdr.go supports it. -/
def sdrDefaultReadBytes : Nat := 32

/-- src/sdr.go `sdrHeader` fields. -/
structure SdrHeader where
  recordID : Nat
  sdrVersion : Nat
  recordType : Nat
  remainingBytes : Nat
deriving DecidableEq

/-- src/sdr.go `sdrHeader.Unmarshal`: requires 5 bytes; record id is
little-endian. -/
def sdrHeaderUnmarshal (buf : List Nat) : Except IpmiErr SdrHeader :=
  if buf.length < sdrHeaderSize then .error .message
  else .ok
    { recordID := leUint16At buf 0
      sdrVersion := buf.getD 2 0
      recordType := buf.getD 3 0
      remainingBytes := buf.getD 4 0 }

/-- One record held by a mocked BMC SDR repository: the id and type stored
in its header, the NextRecordID the BMC reports alongside it, and the body
bytes that follow the 5-byte header. -/
structure SDRRecordSpec where
  recordID : Nat
  nextID : Nat
  recordType : Nat
  body : List Nat
deriving DecidableEq

/-- Wire image of a mocked SDR record: 5-byte header (little-endian record
id, SDR version 0x51, record type, remaining-bytes count) followed by the
body. -/
def SDRRecordSpec.wire (r : SDRRecordSpec) : List Nat :=
  [r.recordID % 256, r.recordID / 256 % 256, 0x51, r.recordType, r.body.length % 256] ++ r.body

/-- A mocked BMC for the SDR enumeration: repository info, the records, a
read-size limit above which Get-SDR answers completion code 0xca
(Request data field exceeded), and a schedule of Get-SDR call indices
answered with completion code `cancelCode` (a cancelled reservation). -/
structure SDRRepo where
  sdrVersion : Nat
  recordCount : Nat
  records : List SDRRecordSpec
  readLimit : Nat
  cancelOn : List Nat
  cancelCode : Nat
deriving DecidableEq

/-- Record lookup of the mocked BMC: requesting id 0x0000 returns the first
record, any other id the record bearing it. -/
def SDRRepo.find (repo : SDRRepo) (id : Nat) : Option SDRRecordSpec :=
  if id = sdrFirstID then repo.records.head?
  else repo.records.find? (fun r => r.recordID = id)

/-- Response of the mocked BMC to one Get-SDR command (the command-level
view of `c.Execute(gsc)` followed by `GetSDRCommand.Unmarshal`): either a
CommandError completion code, or the NextRecordID together with `readBytes`
bytes of the record image starting at `offset`. -/
def SDRRepo.getSDR (repo : SDRRepo) (callIdx reservation recordID offset readBytes : Nat) :
    Except IpmiErr (Nat × List Nat) :=
  if callIdx ∈ repo.cancelOn then .error (.command repo.cancelCode)
  else if repo.readLimit < readBytes then .error (.command CompletionRequestDataFieldExceedEd)
  else
    match repo.find recordID with
    | none => .error (.command 0xcb)
    | some r => .ok (r.nextID, ((SDRRecordSpec.wire r).drop offset).take readBytes)

/-- Client-side state threaded through the SDR walk: the adaptive chunk size
`c.sdrReadingBytes` and a running Get-SDR call counter (used only to drive
the mocked cancellation schedule). -/
structure SDRClientState where
  sdrReadingBytes : Nat
  callIdx : Nat
deriving DecidableEq

/-- src/sdr.go `sdrGetRecordHeaderAndNextID`: Get-SDR with offset 0 and
length 5, parse the header, and keep the id requested by the caller unless
this is the first record. -/
def sdrGetRecordHeaderAndNextID (repo : SDRRepo) (st : SDRClientState)
    (reservation recordID : Nat) :
    Except IpmiErr (SdrHeader × Nat) × SDRClientState :=
  let st' := { st with callIdx := st.callIdx + 1 }
  match repo.getSDR st.callIdx reservation recordID 0 sdrHeaderSize with
  | .error e => (.error e, st')
  | .ok (nextID, data) =>
    match sdrHeaderUnmarshal data with
    | .error e => (.error e, st')
    | .ok header =>
      if recordID ≠ sdrFirstID ∧ recordID ≠ header.recordID then
        (.ok ({ header with recordID := recordID }, nextID), st')
      else (.ok (header, nextID), st')

/-- The body-read loop of src/sdr.go `sdrGetRecord`: fetch
`header.remainingBytes` bytes in chunks of at most `sdrReadingBytes`,
offset by the collected count plus the 5-byte header.  On completion code
0xca with a chunk size above the 5-byte floor, shrink the chunk size by 8
(floored at 5) and retry the same chunk; any other error — or 0xca at the
floor — is surfaced.  The accumulated bytes stand for `buf[:n]` (the Go
code preallocates `buf` and copies each chunk at offset `n`). -/
def sdrGetRecordLoop (repo : SDRRepo) (reservation : Nat) (header : SdrHeader) :
    Nat → List Nat → SDRClientState → Except IpmiErr (List Nat) × SDRClientState
  | 0, _, st => (.error .outOfFuel, st)
  | fuel + 1, acc, st =>
    if header.remainingBytes ≤ acc.length then (.ok acc, st)
    else
      let r := min (header.remainingBytes - acc.length) st.sdrReadingBytes
      let st1 := { st with callIdx := st.callIdx + 1 }
      match repo.getSDR st.callIdx reservation header.recordID (acc.length + sdrHeaderSize) r with
      | .error e =>
        if e = .command CompletionRequestDataFieldExceedEd ∧
            sdrHeaderSize < st.sdrReadingBytes then
          let nb := st.sdrReadingBytes - 8
          let nb := if nb < sdrHeaderSize then sdrHeaderSize else nb
          sdrGetRecordLoop repo reservation header fuel acc
            { st1 with sdrReadingBytes := nb }
        else (.error e, st1)
      | .ok (_, data) => sdrGetRecordLoop repo reservation header fuel (acc ++ data) st1

/-- A record produced by the walk: its header and raw body bytes.  src/sdr.go
`sdrGetRecord` parses types 0x01 and 0x11 into structured records and wraps
the rest as `sdrRaw`; all three alternatives carry the header and the body
bytes, so the walk-level claims are stated on this common shape, keeping the
minimum-size checks of the two parsed types. -/
structure SDRRecOut where
  header : SdrHeader
  data : List Nat
deriving DecidableEq

/-- src/sdr.go `sdrGetRecord`: run the body-read loop, then dispatch on the
record type (Full Sensor records below 43 bytes and FRU Device Locator
records below 11 bytes fail to unmarshal). -/
def sdrGetRecord (repo : SDRRepo) (reservation : Nat) (header : SdrHeader)
    (fuel : Nat) (st : SDRClientState) : Except IpmiErr SDRRecOut × SDRClientState :=
  match sdrGetRecordLoop repo reservation header fuel [] st with
  | (.error e, st') => (.error e, st')
  | (.ok buf, st') =>
    if header.recordType = 0x01 ∧ buf.length < 43 then (.error .message, st')
    else if header.recordType = 0x11 ∧ buf.length < 11 then (.error .message, st')
    else (.ok ⟨header, buf⟩, st')

/-- Outcome of one pass of the walk loop: the repository end was reached, a
command reported a cancelled reservation (`goto retry`), or a fatal error. -/
inductive WalkStep where
  | done : List SDRRecOut → WalkStep
  | cancelled : List SDRRecOut → WalkStep
  | failed : IpmiErr → WalkStep
deriving DecidableEq

/-- The record-id loop of src/sdr.go `SDRGetRecordsRepo` (between the
`retry` label and the end of the `for`): fetch each header, apply the
filter, fetch the body of accepted records, and follow NextRecordID until
0xffff.  A `CompletionReservationCancelled` CommandError from either fetch
yields `cancelled` with the records collected so far (the Go code jumps to
`retry` without touching `sensors`). -/
def sdrWalkInner (repo : SDRRepo) (filter : Option (Nat → Nat → Bool))
    (reservation bodyFuel : Nat) :
    Nat → Nat → List SDRRecOut → SDRClientState → WalkStep × SDRClientState
  | 0, _, _, st => (.failed .outOfFuel, st)
  | fuel + 1, recordID, sensors, st =>
    if recordID = sdrLastID then (.done sensors, st)
    else
      match sdrGetRecordHeaderAndNextID repo st reservation recordID with
      | (.error e, st1) =>
        if e = .command CompletionReservationCancelled then (.cancelled sensors, st1)
        else (.failed e, st1)
      | (.ok (header, nextID), st1) =>
        if (match filter with
            | none => true
            | some f => f header.recordID header.recordType) then
          match sdrGetRecord repo reservation header bodyFuel st1 with
          | (.error e, st2) =>
            if e = .command CompletionReservationCancelled then (.cancelled sensors, st2)
            else (.failed e, st2)
          | (.ok record, st2) =>
            sdrWalkInner repo filter reservation bodyFuel fuel nextID
              (sensors ++ [record]) st2
        else sdrWalkInner repo filter reservation bodyFuel fuel nextID sensors st1

/-- The `retry` loop of src/sdr.go `SDRGetRecordsRepo`: reserve the
repository (the mocked BMC hands out reservation ids 1, 2, ...) and run the
record-id loop from `sdrFirstID`; on a cancelled reservation reserve again
and restart the loop, carrying over the `sensors` collected so far exactly
as the Go code does (the `goto retry` target sits after the `sensors`
allocation). -/
def sdrRetryLoop (repo : SDRRepo) (filter : Option (Nat → Nat → Bool))
    (innerFuel bodyFuel : Nat) :
    Nat → List SDRRecOut → Nat → SDRClientState → Except IpmiErr (List SDRRecOut)
  | 0, _, _, _ => .error .outOfFuel
  | retryFuel + 1, sensors, resCtr, st =>
    match sdrWalkInner repo filter (resCtr + 1) bodyFuel innerFuel sdrFirstID sensors st with
    | (.done sensors', _) => .ok sensors'
    | (.failed e, _) => .error e
    | (.cancelled sensors', st') =>
      sdrRetryLoop repo filter innerFuel bodyFuel retryFuel sensors' (resCtr + 1) st'

/-- src/sdr.go `SDRGetRecordsRepo`: check the repository version and record
count, then walk with restart-on-cancel.  The chunk size starts at
`sdrDefaultReadBytes`.  The fuels bound the loop models; every theorem
below supplies enough fuel for the runs it speaks about. -/
def SDRGetRecordsRepo (repo : SDRRepo) (filter : Option (Nat → Nat → Bool))
    (retryFuel innerFuel bodyFuel : Nat) : Except IpmiErr (List SDRRecOut) :=
  if repo.sdrVersion ≠ 0x01 ∧ repo.sdrVersion ≠ 0x51 ∧ repo.sdrVersion ≠ 0x02 then
    .error .message
  else if repo.recordCount = 0 then .error .message
  else
    sdrRetryLoop repo filter innerFuel bodyFuel retryFuel [] 0
      { sdrReadingBytes := sdrDefaultReadBytes, callIdx := 0 }

/-- src/sel.go: the record id that terminates a SEL walk. -/
def selLastID : Nat := 0xffff

/-- src/sel.go: first record id. -/
def selFirstID : Nat := 0x0000

/-- One record held by a mocked BMC SEL: its 16-byte wire image (bytes 0-1
hold the little-endian record id, byte 2 the record type) and the
NextRecordID the BMC reports alongside it. -/
structure SELRecordSpec where
  data : List Nat
  nextID : Nat
deriving DecidableEq

/-- A mocked BMC for the SEL enumeration. -/
structure SELRepo where
  selVersion : Nat
  entries : Nat
  records : List SELRecordSpec
deriving DecidableEq

/-- Record id stored in the first two bytes of a SEL record image. -/
def selRecordId (d : List Nat) : Nat := leUint16At d 0

/-- Record lookup of the mocked BMC: requesting id 0x0000 returns the first
record, any other id the record bearing it. -/
def SELRepo.find (repo : SELRepo) (id : Nat) : Option SELRecordSpec :=
  if id = selFirstID then repo.records.head?
  else repo.records.find? (fun r => selRecordId r.data = id)

/-- A parsed SEL record as produced by src/sel.go `selGetRecord`.  The Go
code dispatches the 16-byte image into `SELEventRecord`,
`SELTimestampedOEMRecord` or `SELNonTimestampedOEMRecord` by the type byte;
all three variants reject images below 16 bytes, read the record id from
bytes 0-1 (little-endian) and retain the 16-byte image, which is all the
enumeration claims depend on. -/
structure SELRecOut where
  recordID : Nat
  recordType : Nat
  data : List Nat
deriving DecidableEq

/-- src/sel.go `selGetRecord`: Get-SEL-Entry with offset 0 and length 0xff
(the mocked BMC returns up to 255 bytes of the record image and its
NextRecordID), reject responses below 3 bytes, then unmarshal the variant
selected by the type byte (each variant requires 16 bytes). -/
def selGetRecord (repo : SELRepo) (reservation id : Nat) :
    Except IpmiErr (SELRecOut × Nat) :=
  match repo.find id with
  | none => .error (.command 0xcb)
  | some r =>
    let buf := r.data.take 255
    if buf.length < 3 then .error .message
    else if buf.length < 16 then .error .message
    else .ok ({ recordID := selRecordId buf
                recordType := buf.getD 2 0
                data := buf.take 16 }, r.nextID)

/-- The retrieval loop of src/sel.go `SELGetEntries`: collect records while
fewer than the requested count have been fetched and the walk has not
reached id 0xffff. -/
def selWindowLoop (repo : SELRepo) (reservation : Nat) :
    Nat → Nat → List SELRecOut → Except IpmiErr (List SELRecOut)
  | 0, _, acc => .ok acc
  | count + 1, id, acc =>
    if id = selLastID then .ok acc
    else
      match selGetRecord repo reservation id with
      | .error e => .error e
      | .ok (r, nid) => selWindowLoop repo reservation count nid (acc ++ [r])

/-- The clamp of src/sel.go `SELGetEntries`: `if n := total - offset;
num > n { num = n }`. -/
def selClampNum (entries : Nat) (offset num : Int) : Int :=
  if (entries : Int) - offset < num then (entries : Int) - offset else num

/-- The starting-record-id computation of src/sel.go `SELGetEntries`: for a
positive offset, fetch the very first record (no reservation) to learn the
stride between consecutive ids and extrapolate (uint16 arithmetic, hence
the moduli).  When that fetch fails the Go code returns through its named
results with a nil error — an empty success — modelled as `none`. -/
def selComputeROffset (repo : SELRepo) (offset : Int) : Option Nat :=
  if 0 < offset then
    match selGetRecord repo 0x00 selFirstID with
    | .error _ => none
    | .ok (r, n) =>
      some (((n + 65536 - r.recordID % 65536) % 65536 * (offset.toNat % 65536) +
        r.recordID) % 65536)
  else some selFirstID

/-- src/sel.go `SELGetEntries`: check the SEL version, read the total entry
count, return empty on a zero total, non-positive count or out-of-range
offset, clamp the count to `total - offset`, derive the starting record id,
reserve (the mocked BMC hands out reservation 1), collect, and trim the
result to the clamped count.  `offset` and `num` are Go `int` values,
modelled as `Int`. -/
def SELGetEntries (repo : SELRepo) (offset num : Int) :
    Except IpmiErr (List SELRecOut × Nat) :=
  if repo.selVersion ≠ 0x51 ∧ repo.selVersion ≠ 0x02 then .error .message
  else if (repo.entries : Int) = 0 ∨ num ≤ 0 ∨ offset < 0 ∨ offset ≥ (repo.entries : Int) then
    .ok ([], repo.entries)
  else
    match selComputeROffset repo offset with
    | none => .ok ([], repo.entries)
    | some roffset =>
      match selWindowLoop repo 1 (selClampNum repo.entries offset num).toNat roffset [] with
      | .error e => .error e
      | .ok records =>
        if (selClampNum repo.entries offset num).toNat < records.length then
          .ok (records.drop (records.length - (selClampNum repo.entries offset num).toNat),
            repo.entries)
        else .ok (records, repo.entries)

/-- The 100-record mocked SEL of spec scenario S5: ids 1 through 100, each
record reporting its successor, the last reporting 0xffff. -/
def selRepo100 : SELRepo :=
  { selVersion := 0x51
    entries := 100
    records := (List.range 100).map (fun i =>
      { data := [(i + 1) % 256, (i + 1) / 256 % 256, 2] ++ List.replicate 13 0
        nextID := if i = 99 then 0xffff else i + 2 }) }

/-- An active v2.0 session with live key material and an open socket. -/
def sActive : SessionV2 :=
  { id := 7, sequence := 3, rqSeq := 1, k1 := some [1], k2 := some [2], conn := true }

/-- A Close-Session exchange that fails with a CommandError and leaves the
session untouched. -/
def execFailC2 : Nat → SessionV2 → SessionV2 × Option IpmiErr :=
  fun _ s => (s, some (.command 0xff))

/-- A Close-Session exchange that succeeds, leaving the session untouched. -/
def execOkC2 : Nat → SessionV2 → SessionV2 × Option IpmiErr :=
  fun _ s => (s, none)

/-- First record of the two-record mocked repository. -/
def sdrRec1 : SDRRecordSpec := { recordID := 1, nextID := 2, recordType := 2, body := [0xaa] }

/-- Second record of the two-record mocked repository. -/
def sdrRec2 : SDRRecordSpec :=
  { recordID := 2, nextID := 0xffff, recordType := 2, body := [0xbb] }

/-- A two-record repository whose BMC answers the fourth Get-SDR (the body
read of the second record) with completion code `code` — the wire code a
BMC uses for a cancelled reservation. -/
def sdrRepoCancel (code : Nat) : SDRRepo :=
  { sdrVersion := 0x51, recordCount := 2, records := [sdrRec1, sdrRec2],
    readLimit := 32, cancelOn := [3], cancelCode := code }

/-- A 40-byte record for the chunk-backoff scenario. -/
def sdrRecBackoff : SDRRecordSpec :=
  { recordID := 1, nextID := 0xffff, recordType := 2,
    body := (List.range 40).map (fun i => i + 10) }

/-- A repository whose BMC rejects Get-SDR reads above 16 bytes with
completion code 0xca (spec testable property 8). -/
def sdrRepoBackoff : SDRRepo :=
  { sdrVersion := 0x51, recordCount := 1, records := [sdrRecBackoff],
    readLimit := 16, cancelOn := [], cancelCode := 0xc7 }

/-- Header of the backoff-scenario record as fetched from the wire. -/
def sdrHeaderBackoff : SdrHeader :=
  { recordID := 1, sdrVersion := 0x51, recordType := 2, remainingBytes := 40 }

/-- A toy MAC for witnesses: the data zero-padded to the 20-byte digest
size.  It is injective on buffers of up to 12 bytes after the 12-byte
truncation, which is all the trailer witness needs. -/
def padMac : List Nat → List Nat → List Nat :=
  fun _ d => (d ++ List.replicate 20 0).take 20

/-- A block map sending every block to fifteen zero bytes and a final 255.
AES-128 block decryption attains this output on some ciphertext block for
every key, being a bijection on 16-byte blocks, so the behaviour below is
reachable with genuine AES under any key. -/
def dPad255 : List Nat → List Nat := fun _ => List.replicate 15 0 ++ [255]

/-- An active session whose sequence counter sits at `math.MaxUint32`. -/
def sMaxSeq : SessionV2 :=
  { id := 1, sequence := maxUint32, rqSeq := 0, k1 := none, k2 := none, conn := true }

/-- A fresh, inactive session. -/
def sIdle : SessionV2 :=
  { id := 0, sequence := 0, rqSeq := 0, k1 := none, k2 := none, conn := false }

/-! Helper lemmas. -/

theorem foldl_add_mod (l : List Nat) :
    ∀ a, l.foldl (fun c x => (c + x) % 256) (a % 256) = (a + l.sum) % 256 := by
  induction l with
  | nil => intro a; simp
  | cons x xs ih =>
    intro a
    simp only [List.foldl_cons, List.sum_cons]
    have h : (a % 256 + x) % 256 = (a + x) % 256 := by omega
    rw [h, ih (a + x)]
    omega

theorem checksum_foldl_sum (l : List Nat) :
    l.foldl (fun c x => (c + x) % 256) 0 = l.sum % 256 := by
  have h := foldl_add_mod l 0
  simpa using h

theorem checksum_add_sum (buf : List Nat) : (checksum buf + buf.sum) % 256 = 0 := by
  unfold checksum
  rw [checksum_foldl_sum]
  omega

theorem checksum_eq_iff (l : List Nat) (t : Nat) (ht : t < 256) :
    checksum l = t ↔ (l.sum + t) % 256 = 0 := by
  unfold checksum
  rw [checksum_foldl_sum]
  omega

/-- C6: the 8-bit checksum is the two's complement of the byte sum —
`checksum(bytes) + sum(bytes) ≡ 0 (mod 256)`, in particular for 2-byte
headers — and an IPMI response whose first or second checksum violates the
equation fails unmarshalling with a message error. -/
theorem checksum_law :
    (∀ buf : List Nat, (checksum buf + buf.sum) % 256 = 0) ∧
    (∀ a b : Nat, (checksum [a, b] + a + b) % 256 = 0) ∧
    (∀ buf : List Nat, 8 ≤ buf.length → (∀ x ∈ buf, x < 256) →
      ((buf.getD 0 0 + buf.getD 1 0 + buf.getD 2 0) % 256 ≠ 0 ∨
        ((buf.drop 3).dropLast.sum + buf.getD (buf.length - 1) 0) % 256 ≠ 0) →
      ipmiResponseUnmarshal buf = .error .message) := by
  refine ⟨checksum_add_sum, ?_, ?_⟩
  · intro a b
    have h := checksum_add_sum [a, b]
    simp only [List.sum_cons, List.sum_nil] at h
    omega
  · intro buf hlen hb hbad
    rcases buf with _ | ⟨b0, buf⟩
    · simp at hlen
    rcases buf with _ | ⟨b1, buf⟩
    · simp at hlen
    rcases buf with _ | ⟨b2, rest⟩
    · simp at hlen
    have hrest : 5 ≤ rest.length := by
      simpa using hlen
    have hlast_idx : rest.length - 1 < rest.length := by omega
    have hb2 : b2 < 256 := hb b2 (by simp)
    have hlast_mem : rest.getD (rest.length - 1) 0 ∈ rest := by
      rw [List.getD_eq_getElem _ _ hlast_idx]
      exact List.getElem_mem hlast_idx
    have hlast : rest.getD (rest.length - 1) 0 < 256 :=
      hb _ (List.mem_cons_of_mem _ (List.mem_cons_of_mem _ (List.mem_cons_of_mem _ hlast_mem)))
    have hidx : (b0 :: b1 :: b2 :: rest).length - 1 = (rest.length - 1) + 1 + 1 + 1 := by
      simp; omega
    rw [hidx] at hbad
    simp only [List.getD_cons_succ, List.getD_cons_zero, List.drop_succ_cons,
      List.drop_zero, List.dropLast_cons₂] at hbad ⊢
    simp only [ipmiResponseUnmarshal]
    split_ifs with h0 h1 h2
    · rfl
    · rfl
    · rfl
    · exfalso
      push_neg at h1 h2
      simp only [List.take_succ_cons, List.take_zero, List.getD_cons_succ,
        List.getD_cons_zero] at h1
      have e1 : (b0 + b1 + b2) % 256 = 0 := by
        have := (checksum_eq_iff [b0, b1] b2 hb2).mp h1
        simp only [List.sum_cons, List.sum_nil] at this
        omega
      have hidx2 : (b0 :: b1 :: b2 :: rest).length - 1 = (rest.length - 1) + 1 + 1 + 1 := by
        simp; omega
      rw [hidx2] at h2
      simp only [List.drop_succ_cons, List.drop_zero, List.getD_cons_succ] at h2
      have e2 : (rest.dropLast.sum + rest.getD (rest.length - 1) 0) % 256 = 0 := by
        have := (checksum_eq_iff rest.dropLast (rest.getD (rest.length - 1) 0) hlast).mp h2
        omega
      rcases hbad with hbad | hbad
      · exact hbad e1
      · exact hbad e2

/-- C7: while the session is active `NextSequence` never returns 0 — from
`math.MaxUint32` it wraps to 1, otherwise it increments — and while
inactive it returns 0 (the stored counter, which is 0 whenever the session
id is 0) and leaves the session unchanged. -/
theorem nextSequence_wrap (s : SessionV2) (hseq : s.sequence < 2 ^ 32)
    (hinv : s.id = 0 → s.sequence = 0) :
    (s.ActiveSession = true →
      s.NextSequence.1 ≠ 0 ∧
      (s.sequence = maxUint32 → s.NextSequence.1 = 1 ∧ s.NextSequence.2.sequence = 1) ∧
      (s.sequence ≠ maxUint32 →
        s.NextSequence.1 = s.sequence + 1 ∧ s.NextSequence.2.sequence = s.sequence + 1)) ∧
    (s.ActiveSession = false → s.NextSequence.1 = 0 ∧ s.NextSequence.2 = s) := by
  constructor
  · intro hact
    by_cases hm : s.sequence = maxUint32
    · simp [SessionV2.NextSequence, hact, hm]
    · have hlt : s.sequence + 1 < 2 ^ 32 := by
        unfold maxUint32 at hm
        omega
      simp only [SessionV2.NextSequence, hact, if_true, hm, if_false, if_neg hm]
      rw [Nat.mod_eq_of_lt hlt]
      simp
  · intro hact
    have hid : s.id = 0 := by
      simp only [SessionV2.ActiveSession, decide_eq_false_iff_not] at hact
      omega
    simp [SessionV2.NextSequence, SessionV2.ActiveSession, hid, hinv hid]

/-- C7 witness: the wrap case at an active session sitting at the maximal
sequence value, and the inactive case at a fresh session. -/
theorem nextSequence_wrap_inst :
    sMaxSeq.NextSequence.1 = 1 ∧ sIdle.NextSequence.1 = 0 := by
  have h1 := nextSequence_wrap sMaxSeq (by decide) (by intro h; simp [sMaxSeq] at h)
  have h2 := nextSequence_wrap sIdle (by decide) (by intro _; rfl)
  exact ⟨((h1.1 (by decide)).2.1 (by decide)).1, (h2.2 (by decide)).1⟩

/-- C6 witness: the checksum law at the fixed header `(0x81, 0x1c)`, and a
response whose body checksum is off rejected by the unmarshaller. -/
theorem checksum_law_inst :
    (checksum [0x81, 0x1c] + 0x81 + 0x1c) % 256 = 0 ∧
    ipmiResponseUnmarshal [0x81, 0x1c, 0x63, 0x20, 0x04, 0x01, 0x00, 0x99] =
      .error .message := by
  refine ⟨checksum_law.2.1 0x81 0x1c, ?_⟩
  exact checksum_law.2.2 [0x81, 0x1c, 0x63, 0x20, 0x04, 0x01, 0x00, 0x99]
    (by decide) (by decide) (Or.inr (by decide))

/-- C2 counterexample: on an active session whose Close-Session exchange
fails, `Close` returns the error with the session id, key material and
socket all left in place — the claim asserts they are cleared and closed
regardless of the command outcome. -/
theorem close_failure_keeps_state :
    (sActive.Close execFailC2 true).2 = some (.command 0xff) ∧
    (sActive.Close execFailC2 true).1.id = 7 ∧
    (sActive.Close execFailC2 true).1.k1 = some [1] ∧
    (sActive.Close execFailC2 true).1.k2 = some [2] ∧
    (sActive.Close execFailC2 true).1.conn = true := by
  refine ⟨rfl, rfl, rfl, rfl, rfl⟩

/-- C2 (amended): on an active session `Close` sends Close-Session with the
active session id; when the exchange succeeds the session state (id,
sequence, rq_seq, K1, K2) is cleared and the socket is closed, but when it
fails `Close` returns the error at once, leaving the session exactly as the
failed exchange left it — state uncleared and socket open. -/
theorem close_clears_state (s s' : SessionV2)
    (exec : Nat → SessionV2 → SessionV2 × Option IpmiErr) (e : IpmiErr)
    (hact : s.ActiveSession = true) :
    (exec s.id s = (s', none) →
      (s.Close exec true).2 = none ∧
      (s.Close exec true).1.id = 0 ∧
      (s.Close exec true).1.sequence = 0 ∧
      (s.Close exec true).1.rqSeq = 0 ∧
      (s.Close exec true).1.k1 = none ∧
      (s.Close exec true).1.k2 = none ∧
      (s.Close exec true).1.conn = false) ∧
    (exec s.id s = (s', some e) → s.Close exec true = (s', some e)) := by
  constructor
  · intro hexec
    simp only [SessionV2.Close, hact, if_true, hexec]
    by_cases hc : s'.conn <;> simp [hc]
  · intro hexec
    simp [SessionV2.Close, hact, hexec]

/-- C2 witness: the amended close behaviour at a concrete active session
with a succeeding and a failing exchange. -/
theorem close_clears_state_inst :
    (sActive.Close execOkC2 true).1.id = 0 ∧
    (sActive.Close execOkC2 true).1.conn = false ∧
    sActive.Close execFailC2 true = (sActive, some (.command 0xff)) := by
  have h1 := close_clears_state sActive sActive execOkC2 (.command 0xff) (by decide)
  have h2 := close_clears_state sActive sActive execFailC2 (.command 0xff) (by decide)
  exact ⟨(h1.1 rfl).2.1, (h1.1 rfl).2.2.2.2.2.2, h2.2 rfl⟩

/-- Zero-extending an already zero-extended buffer changes nothing. -/
theorem zeroExtend_idem (n : Nat) (b : List Nat) :
    zeroExtend n (zeroExtend n b) = zeroExtend n b := by
  unfold zeroExtend
  have h : n - (b ++ List.replicate (n - b.length) 0).length = 0 := by
    simp only [List.length_append, List.length_replicate]
    omega
  rw [h]
  simp

/-- C3 counterexample: the empty buffer — shorter than every fixed message
size — is accepted by the Open Session Response, RAKP 2 and RAKP 4
unmarshallers instead of failing with a message error. -/
theorem truncated_rakp_accepted :
    (∃ v, openSessionResponseUnmarshal [] = .ok v) ∧
    (∃ v, rakpMessage2Unmarshal [] = .ok v) ∧
    (∃ v, rakpMessage4Unmarshal [] = .ok v) :=
  ⟨⟨_, rfl⟩, ⟨_, rfl⟩, ⟨_, rfl⟩⟩

/-- C3 (amended): fixed-size received messages such as the v2.0 session
header reject truncated buffers with a message error, but the RMCP+ Open
Session Response and the RAKP 2 and RAKP 4 payloads never fail: they
zero-extend any buffer to their fixed size and parse the result. -/
theorem truncated_unmarshal_behavior (buf : List Nat) (hlen : buf.length < 12) :
    sessionHeaderV2Unmarshal buf = .error .message ∧
    (∀ b : List Nat,
      openSessionResponseUnmarshal b = openSessionResponseUnmarshal (zeroExtend 36 b) ∧
      ∃ v, openSessionResponseUnmarshal b = .ok v) ∧
    (∀ b : List Nat,
      rakpMessage2Unmarshal b = rakpMessage2Unmarshal (zeroExtend 40 b) ∧
      ∃ v, rakpMessage2Unmarshal b = .ok v) ∧
    (∀ b : List Nat,
      rakpMessage4Unmarshal b = rakpMessage4Unmarshal (zeroExtend 20 b) ∧
      ∃ v, rakpMessage4Unmarshal b = .ok v) := by
  refine ⟨?_, ?_, ?_, ?_⟩
  · simp [sessionHeaderV2Unmarshal, hlen]
  · intro b
    refine ⟨?_, ⟨_, rfl⟩⟩
    simp only [openSessionResponseUnmarshal, zeroExtend_idem]
  · intro b
    refine ⟨?_, ⟨_, rfl⟩⟩
    simp only [rakpMessage2Unmarshal, zeroExtend_idem]
  · intro b
    refine ⟨?_, ⟨_, rfl⟩⟩
    simp only [rakpMessage4Unmarshal, zeroExtend_idem]

/-- C3 witness: the amended behaviour at the empty buffer. -/
theorem truncated_unmarshal_behavior_inst :
    sessionHeaderV2Unmarshal [] = .error .message ∧
    ∃ v, openSessionResponseUnmarshal [] = .ok v := by
  have h := truncated_unmarshal_behavior [] (by decide)
  exact ⟨h.1, (h.2.1 []).2⟩


theorem length_xorBytes (a b : List Nat) : (xorBytes a b).length = min a.length b.length := by
  simp [xorBytes]

theorem xorBytes_xorBytes (a b : List Nat) (h : a.length = b.length) :
    xorBytes a (xorBytes a b) = b := by
  induction a generalizing b with
  | nil =>
    cases b with
    | nil => rfl
    | cons y ys => simp at h
  | cons x xs ih =>
    cases b with
    | nil => simp at h
    | cons y ys =>
      simp only [List.length_cons, Nat.add_right_cancel_iff] at h
      simp only [xorBytes, List.zipWith_cons_cons] at *
      refine congrArg₂ _ ?_ (ih ys h)
      rw [← Nat.xor_assoc, Nat.xor_self, Nat.zero_xor]

theorem toBlocks_nil : toBlocks [] = [] := by
  simp [toBlocks]

theorem toBlocks_eq_cons (l : List Nat) (h : l ≠ []) :
    toBlocks l = l.take 16 :: toBlocks (l.drop 16) := by
  conv_lhs => rw [toBlocks]
  simp [h]

theorem toBlocks_append16 (l rest : List Nat) (h : l.length = 16) :
    toBlocks (l ++ rest) = l :: toBlocks rest := by
  have hne : l ++ rest ≠ [] := by
    intro he
    have := congrArg List.length he
    simp [h] at this
  rw [toBlocks_eq_cons _ hne]
  congr 1
  · rw [← h, List.take_left]
  · rw [← h, List.drop_left]

theorem toBlocks_flatten (bs : List (List Nat)) (h : ∀ b ∈ bs, b.length = 16) :
    toBlocks bs.flatten = bs := by
  induction bs with
  | nil => simpa using toBlocks_nil
  | cons b bs ih =>
    simp only [List.flatten_cons]
    rw [toBlocks_append16 _ _ (h b (by simp)), ih (fun x hx => h x (by simp [hx]))]

theorem flatten_toBlocks : ∀ (n : Nat) (l : List Nat), l.length ≤ n →
    (toBlocks l).flatten = l := by
  intro n
  induction n with
  | zero =>
    intro l h
    have hl : l = [] := List.length_eq_zero.mp (by omega)
    simp [hl, toBlocks_nil]
  | succ n ih =>
    intro l h
    by_cases hl : l = []
    · simp [hl, toBlocks_nil]
    · rw [toBlocks_eq_cons l hl]
      simp only [List.flatten_cons]
      rw [ih (l.drop 16) (by simp only [List.length_drop]; omega)]
      exact List.take_append_drop 16 l

theorem toBlocks_lengths : ∀ (n : Nat) (l : List Nat), l.length = 16 * n →
    ∀ b ∈ toBlocks l, b.length = 16 := by
  intro n
  induction n with
  | zero =>
    intro l h b hb
    have hl : l = [] := List.length_eq_zero.mp (by omega)
    rw [hl, toBlocks_nil] at hb
    simp at hb
  | succ n ih =>
    intro l h b hb
    have hl : l ≠ [] := by
      intro he
      rw [he] at h
      simp at h
    rw [toBlocks_eq_cons l hl] at hb
    rcases List.mem_cons.mp hb with hb | hb
    · rw [hb]
      simp only [List.length_take]
      omega
    · exact ih (l.drop 16) (by simp only [List.length_drop]; omega) b hb

theorem toBlocks_count : ∀ (n : Nat) (l : List Nat), l.length = 16 * n →
    (toBlocks l).length = n := by
  intro n
  induction n with
  | zero =>
    intro l h
    have hl : l = [] := List.length_eq_zero.mp (by omega)
    simp [hl, toBlocks_nil]
  | succ n ih =>
    intro l h
    have hl : l ≠ [] := by
      intro he
      rw [he] at h
      simp at h
    rw [toBlocks_eq_cons l hl]
    simp only [List.length_cons]
    rw [ih (l.drop 16) (by simp only [List.length_drop]; omega)]

theorem flatten_length_16 (bs : List (List Nat)) (h : ∀ b ∈ bs, b.length = 16) :
    bs.flatten.length = 16 * bs.length := by
  induction bs with
  | nil => simp
  | cons b tl ih =>
    simp only [List.flatten_cons, List.length_append, List.length_cons]
    rw [h b (by simp), ih (fun x hx => h x (by simp [hx]))]
    ring

theorem cbcEncBlocks_lengths (E : List Nat → List Nat)
    (hE : ∀ b, b.length = 16 → (E b).length = 16) :
    ∀ (bs : List (List Nat)) (prev : List Nat), prev.length = 16 →
      (∀ b ∈ bs, b.length = 16) → ∀ c ∈ cbcEncBlocks E prev bs, c.length = 16 := by
  intro bs
  induction bs with
  | nil => intro prev _ _ c hc; simp [cbcEncBlocks] at hc
  | cons b tl ih =>
    intro prev hprev hlen c hc
    have hxb : (xorBytes prev b).length = 16 := by
      rw [length_xorBytes, hprev, hlen b (by simp)]
      simp
    have hEb : (E (xorBytes prev b)).length = 16 := hE _ hxb
    simp only [cbcEncBlocks] at hc
    rcases List.mem_cons.mp hc with hc | hc
    · rw [hc]; exact hEb
    · exact ih (E (xorBytes prev b)) hEb (fun x hx => hlen x (by simp [hx])) c hc

theorem cbcEncBlocks_count (E : List Nat → List Nat) :
    ∀ (bs : List (List Nat)) (prev : List Nat),
      (cbcEncBlocks E prev bs).length = bs.length := by
  intro bs
  induction bs with
  | nil => intro prev; rfl
  | cons b tl ih =>
    intro prev
    simp only [cbcEncBlocks, List.length_cons]
    rw [ih]

theorem cbcDec_cbcEnc (E D : List Nat → List Nat)
    (hE : ∀ b, b.length = 16 → (E b).length = 16)
    (hD : ∀ b, b.length = 16 → D (E b) = b) :
    ∀ (bs : List (List Nat)) (prev : List Nat), prev.length = 16 →
      (∀ b ∈ bs, b.length = 16) →
      cbcDecBlocks D prev (cbcEncBlocks E prev bs) = bs := by
  intro bs
  induction bs with
  | nil => intro prev _ _; rfl
  | cons b tl ih =>
    intro prev hprev hlen
    have hxb : (xorBytes prev b).length = 16 := by
      rw [length_xorBytes, hprev, hlen b (by simp)]
      simp
    simp only [cbcEncBlocks, cbcDecBlocks]
    rw [hD _ hxb, xorBytes_xorBytes prev b (by rw [hprev, hlen b (by simp)])]
    rw [ih (E (xorBytes prev b)) (hE _ hxb) (fun x hx => hlen x (by simp [hx]))]

theorem aesPadLen_lt (n : Nat) : aesPadLen n < 16 := by
  unfold aesPadLen
  split <;> omega

theorem aesPadInput_length (src : List Nat) :
    (aesPadInput src).length = src.length + aesPadLen src.length + 1 := by
  simp [aesPadInput]
  omega

theorem aesPadInput_mod (src : List Nat) : (aesPadInput src).length % 16 = 0 := by
  rw [aesPadInput_length]
  unfold aesPadLen
  split <;> omega

theorem aesPadInput_getD_pad (src : List Nat) (i : Nat) (hi : i < aesPadLen src.length) :
    (aesPadInput src).getD (src.length + i) 0 = i + 1 := by
  unfold aesPadInput
  rw [List.append_assoc,
    List.getD_append_right src _ 0 _ (by omega)]
  simp only [Nat.add_sub_cancel_left]
  rw [List.getD_append _ _ 0 i (by simpa using hi),
    List.getD_eq_getElem _ _ (by simpa using hi)]
  simp

theorem aesPadInput_getD_last (src : List Nat) :
    (aesPadInput src).getD (src.length + aesPadLen src.length) 0 = aesPadLen src.length := by
  unfold aesPadInput
  rw [List.append_assoc,
    List.getD_append_right src _ 0 _ (by omega)]
  simp only [Nat.add_sub_cancel_left]
  rw [List.getD_append_right _ _ 0 _ (by simp)]
  simp

theorem aesPadInput_take (src : List Nat) : (aesPadInput src).take src.length = src := by
  unfold aesPadInput
  rw [List.append_assoc]
  conv_lhs => rw [show src.length = src.length from rfl]
  exact List.take_left src _

/-- C4: with the AES-128 block cipher abstracted as an inverse pair of
16-byte block maps, `decryptPayload` undoes `encryptPayload` byte-for-byte
for every plaintext of length at most 47; the ciphertext is the 16-byte IV
plus a positive multiple of 16; and the padded input carries pad bytes
1, 2, ..., padLen with the final byte equal to padLen, where padLen makes
the padded length a multiple of 16. -/
theorem aes_pad_roundtrip (E D : List Nat → List Nat) (iv src : List Nat)
    (hE : ∀ b, b.length = 16 → (E b).length = 16)
    (hD : ∀ b, b.length = 16 → D (E b) = b)
    (hiv : iv.length = 16) (hsrc : src.length ≤ 47) :
    decryptPayload D (encryptPayload E iv src) = .ok src ∧
    (∃ k, 1 ≤ k ∧ (encryptPayload E iv src).length = 16 + 16 * k) ∧
    (src.length + 1 + aesPadLen src.length) % 16 = 0 ∧
    (∀ i, i < aesPadLen src.length → (aesPadInput src).getD (src.length + i) 0 = i + 1) ∧
    (aesPadInput src).getD (src.length + aesPadLen src.length) 0 = aesPadLen src.length := by
  have hPlen := aesPadInput_length src
  obtain ⟨m, hm⟩ : ∃ m, (aesPadInput src).length = 16 * m :=
    ⟨(aesPadInput src).length / 16, by have := aesPadInput_mod src; omega⟩
  have hm1 : 1 ≤ m := by omega
  have hblocks : ∀ b ∈ toBlocks (aesPadInput src), b.length = 16 :=
    toBlocks_lengths m _ hm
  have hencmem : ∀ c ∈ cbcEncBlocks E iv (toBlocks (aesPadInput src)), c.length = 16 :=
    cbcEncBlocks_lengths E hE _ iv hiv hblocks
  have hflatlen : (cbcEncBlocks E iv (toBlocks (aesPadInput src))).flatten.length = 16 * m := by
    rw [flatten_length_16 _ hencmem, cbcEncBlocks_count, toBlocks_count m _ hm]
  have hlen_enc : (encryptPayload E iv src).length = 16 + 16 * m := by
    simp only [encryptPayload, List.length_append, hiv, hflatlen]
  have hround : decryptPayload D (encryptPayload E iv src) = .ok src := by
    unfold decryptPayload
    rw [if_neg (by omega)]
    have ht : (encryptPayload E iv src).take 16 = iv := by
      unfold encryptPayload
      rw [← hiv, List.take_left]
    have hd : (encryptPayload E iv src).drop 16 =
        (cbcEncBlocks E iv (toBlocks (aesPadInput src))).flatten := by
      unfold encryptPayload
      rw [← hiv, List.drop_left]
    rw [ht, hd, toBlocks_flatten _ hencmem, cbcDec_cbcEnc E D hE hD _ iv hiv hblocks,
      flatten_toBlocks (aesPadInput src).length _ le_rfl]
    rw [if_neg (by omega)]
    have hlast : (aesPadInput src).getD ((aesPadInput src).length - 1) 0 =
        aesPadLen src.length := by
      have hidx : (aesPadInput src).length - 1 = src.length + aesPadLen src.length := by
        omega
      rw [hidx]
      exact aesPadInput_getD_last src
    rw [hlast]
    rw [if_neg (by omega)]
    have htake : (aesPadInput src).length - aesPadLen src.length - 1 = src.length := by
      omega
    rw [htake, aesPadInput_take]
  refine ⟨hround, ⟨m, hm1, hlen_enc⟩, ?_, aesPadInput_getD_pad src, aesPadInput_getD_last src⟩
  · have := aesPadInput_mod src
    omega

/-- C10: evaluation at the failing inputs.  A 16-byte ciphertext — a
nonzero multiple of 16 — passes the length check, decrypts to an empty
buffer, and the Go code then indexes `dst[len(dst)-1]`, a runtime panic
rather than a payload or MessageError, for every block cipher.  And a
32-byte ciphertext whose single data block decrypts with final byte 255
drives the unvalidated pad length past the decrypted length, so the slice
`dst[:len(dst)-padLen-1]` panics on a negative bound. -/
theorem decrypt_iv_only_panics :
    (∀ D : List Nat → List Nat,
      decryptPayload D (List.replicate 16 0) = .error .panicSliceBound) ∧
    decryptPayload dPad255 (List.replicate 32 0) = .error .panicSliceBound := by
  constructor
  · intro D
    simp [decryptPayload, toBlocks, cbcDecBlocks]
  · have h2 : toBlocks (List.replicate 16 (0 : Nat)) = [List.replicate 16 0] := by
      rw [toBlocks_eq_cons _ (by decide)]
      rw [show (List.replicate 16 (0 : Nat)).drop 16 = [] from by decide, toBlocks_nil]
      congr 1
    unfold decryptPayload
    rw [if_neg (by norm_num)]
    rw [show (List.replicate 32 (0 : Nat)).drop 16 = List.replicate 16 0 from by decide, h2,
      show (List.replicate 32 (0 : Nat)).take 16 = List.replicate 16 0 from by decide]
    rfl

/-- C4 witness: the round trip at the identity block cipher, the zero IV
and the plaintext `[1, 2, 3]`. -/
theorem aes_pad_roundtrip_inst :
    decryptPayload (fun b => b) (encryptPayload (fun b => b) (List.replicate 16 0) [1, 2, 3]) =
      .ok [1, 2, 3] :=
  (aes_pad_roundtrip (fun b => b) (fun b => b) (List.replicate 16 0) [1, 2, 3]
    (fun _ hb => hb) (fun _ _ => rfl) (by simp) (by simp)).1

theorem getD_set_self (l : List Nat) (i v : Nat) (h : i < l.length) :
    (l.set i v).getD i 0 = v := by
  rw [List.getD_eq_getElem _ _ (by simpa using h)]
  exact List.getElem_set_self _

theorem set_xor_ne (l : List Nat) (i b : Nat) (h : i < l.length) :
    l.set i (l.getD i 0 ^^^ 2 ^ b) ≠ l := by
  intro he
  have h1 : (l.set i (l.getD i 0 ^^^ 2 ^ b)).getD i 0 = l.getD i 0 ^^^ 2 ^ b :=
    getD_set_self l i _ h
  rw [he] at h1
  have h3 : l.getD i 0 ^^^ l.getD i 0 = l.getD i 0 ^^^ (l.getD i 0 ^^^ 2 ^ b) := by
    rw [← h1]
  rw [Nat.xor_self, ← Nat.xor_assoc, Nat.xor_self, Nat.zero_xor] at h3
  exact Nat.pos_iff_ne_zero.mp (Nat.two_pow_pos b) h3.symm

theorem length_flipBit (l : List Nat) (i b : Nat) : (flipBit l i b).length = l.length := by
  simp [flipBit]

theorem trailerPadLen_spec (n : Nat) :
    (n + trailerPadLen n + 2 + 12) % 4 = 0 ∧
    ∀ q, (n + q + 2 + 12) % 4 = 0 → trailerPadLen n ≤ q := by
  refine ⟨?_, ?_⟩
  · unfold trailerPadLen
    split <;> omega
  · intro q hq
    unfold trailerPadLen
    split <;> omega

/-- C5: the integrity trailer is `0xff`-pad, pad-length byte, next-header
0x07 and a 12-byte MAC truncation, with the pad minimal for 4-byte
alignment of source plus trailer; validating the source followed by its own
trailer accepts; and — assuming the truncated MAC separates the MACed
prefix from each of its single-bit modifications, the defining property of
HMAC-SHA1-96 — flipping any bit of the source or of the trailer makes
validation reject. -/
theorem trailer_roundtrip (mac : List Nat → List Nat → List Nat) (src key : List Nat)
    (hmacLen : ∀ k d, (mac k d).length = 20)
    (hflip : ∀ i, i < src.length + trailerPadLen src.length + 2 → ∀ b, b < 8 →
      (mac key (flipBit (src ++ List.replicate (trailerPadLen src.length) 0xff ++
          [trailerPadLen src.length, 0x07]) i b)).take 12 ≠
        (mac key (src ++ List.replicate (trailerPadLen src.length) 0xff ++
          [trailerPadLen src.length, 0x07])).take 12) :
    ((src.length + trailerPadLen src.length + 2 + 12) % 4 = 0 ∧
      ∀ q, (src.length + q + 2 + 12) % 4 = 0 → trailerPadLen src.length ≤ q) ∧
    makeTrailer mac src key =
      List.replicate (trailerPadLen src.length) 0xff ++ [trailerPadLen src.length, 0x07] ++
        (mac key (src ++ List.replicate (trailerPadLen src.length) 0xff ++
          [trailerPadLen src.length, 0x07])).take 12 ∧
    validateTrailer mac (src ++ makeTrailer mac src key) key = .ok () ∧
    (∀ i, i < (src ++ makeTrailer mac src key).length → ∀ b, b < 8 →
      validateTrailer mac (flipBit (src ++ makeTrailer mac src key) i b) key ≠ .ok ()) := by
  have hauthlen : ((mac key (src ++ List.replicate (trailerPadLen src.length) 0xff ++
      [trailerPadLen src.length, 0x07])).take 12).length = 12 := by
    rw [List.length_take, hmacLen]
    omega
  have hbodylen : (src ++ List.replicate (trailerPadLen src.length) 0xff ++
      [trailerPadLen src.length, 0x07]).length = src.length + trailerPadLen src.length + 2 := by
    simp
    omega
  have hfull : src ++ makeTrailer mac src key =
      (src ++ List.replicate (trailerPadLen src.length) 0xff ++
        [trailerPadLen src.length, 0x07]) ++
      (mac key (src ++ List.replicate (trailerPadLen src.length) 0xff ++
        [trailerPadLen src.length, 0x07])).take 12 := by
    simp [makeTrailer, List.append_assoc]
  have hfulllen : (src ++ makeTrailer mac src key).length =
      src.length + trailerPadLen src.length + 2 + 12 := by
    rw [hfull, List.length_append, hbodylen, hauthlen]
  refine ⟨trailerPadLen_spec src.length, rfl, ?_, ?_⟩
  · unfold validateTrailer
    rw [if_neg (by omega), hfull]
    have hidx : ((src ++ List.replicate (trailerPadLen src.length) 0xff ++
        [trailerPadLen src.length, 0x07]) ++
        (mac key (src ++ List.replicate (trailerPadLen src.length) 0xff ++
          [trailerPadLen src.length, 0x07])).take 12).length - 12 =
        (src ++ List.replicate (trailerPadLen src.length) 0xff ++
          [trailerPadLen src.length, 0x07]).length := by
      rw [List.length_append, hauthlen]
      omega
    rw [hidx, List.drop_left, List.take_left, if_pos rfl]
  · intro i hi b hb
    rw [hfulllen] at hi
    by_cases hcase : i < (src ++ List.replicate (trailerPadLen src.length) 0xff ++
        [trailerPadLen src.length, 0x07]).length
    · -- the flipped bit lies in the MACed prefix
      have hflip_eq : flipBit (src ++ makeTrailer mac src key) i b =
          flipBit (src ++ List.replicate (trailerPadLen src.length) 0xff ++
            [trailerPadLen src.length, 0x07]) i b ++
          (mac key (src ++ List.replicate (trailerPadLen src.length) 0xff ++
            [trailerPadLen src.length, 0x07])).take 12 := by
        rw [hfull]
        unfold flipBit
        rw [List.getD_append _ _ _ _ hcase, List.set_append_left _ _ hcase]
      have hflen : (flipBit (src ++ List.replicate (trailerPadLen src.length) 0xff ++
          [trailerPadLen src.length, 0x07]) i b).length =
          src.length + trailerPadLen src.length + 2 := by
        rw [length_flipBit, hbodylen]
      intro hok
      unfold validateTrailer at hok
      rw [hflip_eq] at hok
      rw [if_neg (by simp only [List.length_append, hflen, hauthlen]; omega)] at hok
      have hidx2 : (flipBit (src ++ List.replicate (trailerPadLen src.length) 0xff ++
          [trailerPadLen src.length, 0x07]) i b ++
          (mac key (src ++ List.replicate (trailerPadLen src.length) 0xff ++
            [trailerPadLen src.length, 0x07])).take 12).length - 12 =
          (flipBit (src ++ List.replicate (trailerPadLen src.length) 0xff ++
            [trailerPadLen src.length, 0x07]) i b).length := by
        rw [List.length_append, hauthlen]
        omega
      rw [hidx2, List.drop_left, List.take_left] at hok
      rw [if_neg ?_] at hok
      · exact Except.noConfusion hok
      · intro heq
        exact hflip i (by omega) b hb heq.symm
    · -- the flipped bit lies in the stored auth code
      have hge : (src ++ List.replicate (trailerPadLen src.length) 0xff ++
          [trailerPadLen src.length, 0x07]).length ≤ i := le_of_not_lt hcase
      have hflip_eq : flipBit (src ++ makeTrailer mac src key) i b =
          (src ++ List.replicate (trailerPadLen src.length) 0xff ++
            [trailerPadLen src.length, 0x07]) ++
          flipBit ((mac key (src ++ List.replicate (trailerPadLen src.length) 0xff ++
            [trailerPadLen src.length, 0x07])).take 12)
            (i - (src ++ List.replicate (trailerPadLen src.length) 0xff ++
              [trailerPadLen src.length, 0x07]).length) b := by
        rw [hfull]
        unfold flipBit
        rw [List.getD_append_right _ _ _ _ hge, List.set_append_right _ _ hge]
      have hflen : (flipBit ((mac key (src ++ List.replicate (trailerPadLen src.length)
          0xff ++ [trailerPadLen src.length, 0x07])).take 12)
          (i - (src ++ List.replicate (trailerPadLen src.length) 0xff ++
            [trailerPadLen src.length, 0x07]).length) b).length = 12 := by
        rw [length_flipBit, hauthlen]
      intro hok
      unfold validateTrailer at hok
      rw [hflip_eq] at hok
      rw [if_neg (by rw [List.length_append, hflen]; omega)] at hok
      have hidx2 : ((src ++ List.replicate (trailerPadLen src.length) 0xff ++
          [trailerPadLen src.length, 0x07]) ++
          flipBit ((mac key (src ++ List.replicate (trailerPadLen src.length) 0xff ++
            [trailerPadLen src.length, 0x07])).take 12)
            (i - (src ++ List.replicate (trailerPadLen src.length) 0xff ++
              [trailerPadLen src.length, 0x07]).length) b).length - 12 =
          (src ++ List.replicate (trailerPadLen src.length) 0xff ++
            [trailerPadLen src.length, 0x07]).length := by
        rw [List.length_append, hflen]
        omega
      rw [hidx2, List.drop_left, List.take_left] at hok
      rw [if_neg ?_] at hok
      · exact Except.noConfusion hok
      · intro heq
        have hj : i - (src ++ List.replicate (trailerPadLen src.length) 0xff ++
            [trailerPadLen src.length, 0x07]).length < 12 := by
          rw [hbodylen]
          omega
        exact set_xor_ne ((mac key (src ++ List.replicate (trailerPadLen src.length) 0xff ++
          [trailerPadLen src.length, 0x07])).take 12) _ b (by rw [hauthlen]; exact hj)
          (by simpa [flipBit] using heq)

/-- C5 witness: the trailer law at the empty source, the empty key and the
zero-padding toy MAC (which separates the 4-byte MACed prefix from all of
its single-bit modifications). -/
theorem trailer_roundtrip_inst :
    validateTrailer padMac ([] ++ makeTrailer padMac [] []) [] = .ok () ∧
    (∀ i, i < ([] ++ makeTrailer padMac [] []).length → ∀ b, b < 8 →
      validateTrailer padMac (flipBit ([] ++ makeTrailer padMac [] []) i b) [] ≠ .ok ()) := by
  have h := trailer_roundtrip padMac [] []
    (by intro k d; simp [padMac])
    (by decide)
  exact ⟨h.2.2.1, h.2.2.2⟩

theorem selWindowLoop_length (repo : SELRepo) (res : Nat) :
    ∀ (count id : Nat) (acc l : List SELRecOut),
      selWindowLoop repo res count id acc = .ok l → l.length ≤ acc.length + count := by
  intro count
  induction count with
  | zero =>
    intro id acc l h
    simp only [selWindowLoop] at h
    cases h
    omega
  | succ n ih =>
    intro id acc l h
    simp only [selWindowLoop] at h
    by_cases hid : id = selLastID
    · rw [if_pos hid] at h
      cases h
      omega
    · rw [if_neg hid] at h
      cases hrec : selGetRecord repo res id with
      | error e => rw [hrec] at h; cases h
      | ok p =>
        rw [hrec] at h
        obtain ⟨r, nid⟩ := p
        have := ih nid (acc ++ [r]) l h
        simp only [List.length_append, List.length_cons, List.length_nil] at this
        omega

/-- C8: SEL retrieval with reported total `T`: a zero total, non-positive
count or out-of-range offset yields the empty list with the total;
otherwise the requested count is clamped to `T - offset` so at most
`min num (T - offset)` records come back; and the spec S5 scenario —
total 100, offset 95, num 10 — yields exactly 5 records and total 100. -/
theorem sel_get_entries_window :
    (∀ (repo : SELRepo) (offset num : Int),
      (repo.selVersion = 0x51 ∨ repo.selVersion = 0x02) →
      ((repo.entries : Int) = 0 ∨ num ≤ 0 ∨ offset < 0 ∨ offset ≥ (repo.entries : Int)) →
      SELGetEntries repo offset num = .ok ([], repo.entries)) ∧
    (∀ (repo : SELRepo) (offset num : Int) (l : List SELRecOut) (total : Nat),
      SELGetEntries repo offset num = .ok (l, total) →
      (l.length : Int) ≤ max 0 (min num ((repo.entries : Int) - offset))) ∧
    (∃ l, SELGetEntries selRepo100 95 10 = .ok (l, 100) ∧ l.length = 5) := by
  refine ⟨?_, ?_, ?_⟩
  · intro repo offset num hv hdeg
    unfold SELGetEntries
    rw [if_neg (by tauto), if_pos hdeg]
  · intro repo offset num l total h
    unfold SELGetEntries at h
    by_cases hv : repo.selVersion ≠ 0x51 ∧ repo.selVersion ≠ 0x02
    · rw [if_pos hv] at h
      cases h
    · rw [if_neg hv] at h
      by_cases hdeg : (repo.entries : Int) = 0 ∨ num ≤ 0 ∨ offset < 0 ∨
          offset ≥ (repo.entries : Int)
      · rw [if_pos hdeg] at h
        cases h
        simp only [List.length_nil, Nat.cast_zero]
        exact le_max_left 0 _
      · rw [if_neg hdeg] at h
        push_neg at hdeg
        obtain ⟨hT, hn, ho1, ho2⟩ := hdeg
        split at h
        · cases h
          simp only [List.length_nil, Nat.cast_zero]
          exact le_max_left 0 _
        · rename_i roffset hro
          split at h
          · cases h
          · rename_i records hloop
            have hlen := selWindowLoop_length repo 1 _ roffset [] records hloop
            simp only [List.length_nil, Nat.zero_add] at hlen
            have hlenl : l.length ≤ (selClampNum repo.entries offset num).toNat := by
              by_cases htrim : (selClampNum repo.entries offset num).toNat < records.length
              · rw [if_pos htrim] at h
                cases h
                simp only [List.length_drop]
                omega
              · rw [if_neg htrim] at h
                cases h
                omega
            unfold selClampNum at hlenl
            rw [max_def, min_def]
            split <;> split <;> (try split at hlenl) <;> omega
  · exact ⟨_, rfl, rfl⟩

/-- C8 witness: the degenerate branch at an out-of-range offset and the
length bound at the S5 scenario. -/
theorem sel_get_entries_window_inst :
    SELGetEntries selRepo100 100 10 = .ok ([], 100) ∧
    (∀ l total, SELGetEntries selRepo100 95 10 = .ok (l, total) →
      (l.length : Int) ≤ max 0 (min 10 ((100 : Int) - 95))) := by
  constructor
  · exact sel_get_entries_window.1 selRepo100 100 10 (Or.inl rfl) (by norm_num [selRepo100])
  · intro l total h
    have := sel_get_entries_window.2.1 selRepo100 95 10 l total h
    simpa [selRepo100] using this

/-- C9: when a Get-SDR body read fails with completion code 0xca (Request
data field exceeded) and the chunk size is above the 5-byte floor, the loop
retries the same chunk with `sdrReadingBytes` decreased by 8 and floored at
5, surfacing nothing to the caller; at the floor the error is surfaced; and
against a BMC honouring reads of at least 5 bytes the loop always reaches a
successful result (given fuel beyond the remaining bytes plus the current
chunk size), so the shrinking meets any such limit. -/
theorem sdr_chunk_backoff :
    (∀ (repo : SDRRepo) (res : Nat) (header : SdrHeader) (fuel : Nat)
        (acc : List Nat) (st : SDRClientState),
      repo.getSDR st.callIdx res header.recordID (acc.length + sdrHeaderSize)
          (min (header.remainingBytes - acc.length) st.sdrReadingBytes) =
        .error (.command CompletionRequestDataFieldExceedEd) →
      sdrHeaderSize < st.sdrReadingBytes →
      acc.length < header.remainingBytes →
      sdrGetRecordLoop repo res header (fuel + 1) acc st =
        sdrGetRecordLoop repo res header fuel acc
          { sdrReadingBytes :=
              if st.sdrReadingBytes - 8 < sdrHeaderSize then sdrHeaderSize
              else st.sdrReadingBytes - 8
            callIdx := st.callIdx + 1 }) ∧
    (∀ (repo : SDRRepo) (res : Nat) (header : SdrHeader) (fuel : Nat)
        (acc : List Nat) (st : SDRClientState),
      repo.getSDR st.callIdx res header.recordID (acc.length + sdrHeaderSize)
          (min (header.remainingBytes - acc.length) st.sdrReadingBytes) =
        .error (.command CompletionRequestDataFieldExceedEd) →
      st.sdrReadingBytes = sdrHeaderSize →
      acc.length < header.remainingBytes →
      sdrGetRecordLoop repo res header (fuel + 1) acc st =
        (.error (.command CompletionRequestDataFieldExceedEd),
          { sdrReadingBytes := st.sdrReadingBytes, callIdx := st.callIdx + 1 })) ∧
    (∀ (repo : SDRRepo) (res : Nat) (header : SdrHeader) (r : SDRRecordSpec)
        (fuel : Nat) (acc : List Nat) (st : SDRClientState),
      repo.cancelOn = [] →
      sdrHeaderSize ≤ repo.readLimit →
      repo.find header.recordID = some r →
      header.remainingBytes ≤ r.body.length →
      acc.length ≤ header.remainingBytes →
      sdrHeaderSize ≤ st.sdrReadingBytes →
      header.remainingBytes + st.sdrReadingBytes < fuel + acc.length →
      ∃ buf st', sdrGetRecordLoop repo res header fuel acc st = (.ok buf, st')) := by
  refine ⟨?_, ?_, ?_⟩
  · intro repo res header fuel acc st h1 h2 h3
    simp only [sdrGetRecordLoop, if_neg (by omega : ¬ header.remainingBytes ≤ acc.length), h1]
    rw [if_pos ⟨trivial, h2⟩]
  · intro repo res header fuel acc st h1 h2 h3
    simp only [sdrGetRecordLoop, if_neg (by omega : ¬ header.remainingBytes ≤ acc.length), h1]
    rw [if_neg (by unfold sdrHeaderSize at h2 ⊢; omega)]
  · intro repo res header r fuel
    induction fuel using Nat.strong_induction_on with
    | _ fuel ih =>
      intro acc st hcancel hlimit hfind hrem hacc hchunk hfuel
      match fuel with
      | 0 => omega
      | f + 1 =>
        by_cases hdone : header.remainingBytes ≤ acc.length
        · exact ⟨acc, st, by simp only [sdrGetRecordLoop, if_pos hdone]⟩
        · by_cases hca : repo.readLimit <
              min (header.remainingBytes - acc.length) st.sdrReadingBytes
          · -- the BMC rejects the read: back off and recurse
            have hget : repo.getSDR st.callIdx res header.recordID
                (acc.length + sdrHeaderSize)
                (min (header.remainingBytes - acc.length) st.sdrReadingBytes) =
                .error (.command CompletionRequestDataFieldExceedEd) := by
              unfold SDRRepo.getSDR
              rw [if_neg (by simp [hcancel]), if_pos hca]
            have h5lt : sdrHeaderSize < st.sdrReadingBytes := by
              have hreq : min (header.remainingBytes - acc.length) st.sdrReadingBytes ≤
                  st.sdrReadingBytes := Nat.min_le_right _ _
              unfold sdrHeaderSize at hlimit ⊢
              omega
            obtain ⟨buf, st', hrun⟩ := ih f (by omega)
              acc
              { sdrReadingBytes :=
                  if st.sdrReadingBytes - 8 < sdrHeaderSize then sdrHeaderSize
                  else st.sdrReadingBytes - 8
                callIdx := st.callIdx + 1 }
              hcancel hlimit hfind hrem (by omega)
              (by simp only [show sdrHeaderSize = 5 from rfl] at *; split <;> omega)
              (by simp only [show sdrHeaderSize = 5 from rfl] at *; split <;> omega)
            refine ⟨buf, st', ?_⟩
            simp only [sdrGetRecordLoop, if_neg hdone, hget]
            rw [if_pos ⟨trivial, h5lt⟩]
            exact hrun
          · -- the BMC honours the read: collect the chunk and recurse
            have hdata : repo.getSDR st.callIdx res header.recordID
                (acc.length + sdrHeaderSize)
                (min (header.remainingBytes - acc.length) st.sdrReadingBytes) =
                .ok (r.nextID, ((SDRRecordSpec.wire r).drop (acc.length + sdrHeaderSize)).take
                  (min (header.remainingBytes - acc.length) st.sdrReadingBytes)) := by
              unfold SDRRepo.getSDR
              rw [if_neg (by simp [hcancel]), if_neg hca, hfind]
            have hwire : (SDRRecordSpec.wire r).length = 5 + r.body.length := by
              simp [SDRRecordSpec.wire]
              omega
            have hdlen : (((SDRRecordSpec.wire r).drop (acc.length + sdrHeaderSize)).take
                (min (header.remainingBytes - acc.length) st.sdrReadingBytes)).length =
                min (min (header.remainingBytes - acc.length) st.sdrReadingBytes)
                  (r.body.length - acc.length) := by
              simp only [List.length_take, List.length_drop, hwire]
              unfold sdrHeaderSize
              omega
            have hpos : 1 ≤ (((SDRRecordSpec.wire r).drop (acc.length + sdrHeaderSize)).take
                (min (header.remainingBytes - acc.length) st.sdrReadingBytes)).length := by
              rw [hdlen]
              simp only [show sdrHeaderSize = 5 from rfl] at hchunk
              omega
            have hub : (((SDRRecordSpec.wire r).drop (acc.length + sdrHeaderSize)).take
                (min (header.remainingBytes - acc.length) st.sdrReadingBytes)).length ≤
                header.remainingBytes - acc.length := by
              rw [hdlen]
              omega
            obtain ⟨buf, st', hrun⟩ := ih f (by omega)
              (acc ++ ((SDRRecordSpec.wire r).drop (acc.length + sdrHeaderSize)).take
                (min (header.remainingBytes - acc.length) st.sdrReadingBytes))
              { st with callIdx := st.callIdx + 1 }
              hcancel hlimit hfind hrem
              (by simp only [List.length_append]; omega)
              (by simpa using hchunk)
              (by simp only [List.length_append]; omega)
            refine ⟨buf, st', ?_⟩
            simp only [sdrGetRecordLoop, if_neg hdone, hdata]
            exact hrun

/-- C9 witness: against a BMC limited to 16-byte reads the 40-byte body
read succeeds with no surfaced error, and the first rejected 32-byte read
backs off to a 24-byte chunk retrying the same offset. -/
theorem sdr_chunk_backoff_inst :
    (∃ buf st', sdrGetRecordLoop sdrRepoBackoff 1 sdrHeaderBackoff 100 []
      { sdrReadingBytes := 32, callIdx := 0 } = (.ok buf, st')) ∧
    sdrGetRecordLoop sdrRepoBackoff 1 sdrHeaderBackoff 100 []
      { sdrReadingBytes := 32, callIdx := 0 } =
    sdrGetRecordLoop sdrRepoBackoff 1 sdrHeaderBackoff 99 []
      { sdrReadingBytes := 24, callIdx := 1 } := by
  constructor
  · exact sdr_chunk_backoff.2.2 sdrRepoBackoff 1 sdrHeaderBackoff sdrRecBackoff 100 []
      { sdrReadingBytes := 32, callIdx := 0 } rfl (by decide) (by decide) (by decide)
      (by decide) (by decide) (by decide)
  · have h := sdr_chunk_backoff.1 sdrRepoBackoff 1 sdrHeaderBackoff 99 []
      { sdrReadingBytes := 32, callIdx := 0 } rfl (by decide) (by decide)
    simpa using h

/-- C1: evaluation at the failing input.  A BMC cancels the reservation on
the fourth Get-SDR of a two-record walk.  The IPMI wire code for a
cancelled reservation is 0xc5 (Section 5.2), but src/time.go defines
`CompletionReservationCancelled = 0xc7` through a misaligned `iota`, so the
0xc5 reply aborts the walk with a CommandError instead of restarting.  And
when the cancel arrives as the code the walk does compare against, 0xc7,
the walk obtains a new reservation and restarts from the first id but keeps
the records already collected — the `goto retry` target sits below the
`sensors` allocation — returning the first record twice: neither run yields
the complete, duplicate-free two-record list the claim requires. -/
theorem sdr_walk_cancel_eval :
    SDRGetRecordsRepo (sdrRepoCancel 0xc5) none 3 8 8 = .error (.command 0xc5) ∧
    (∃ l, SDRGetRecordsRepo (sdrRepoCancel 0xc7) none 3 8 8 = .ok l ∧
      l.map (fun r : SDRRecOut => r.header.recordID) = [1, 1, 2] ∧
      ¬ l.Nodup ∧ l.length ≠ (sdrRepoCancel 0xc7).recordCount) := by
  refine ⟨rfl, ⟨_, rfl, by decide, by decide, by decide⟩⟩

end Ipmigo
